import Mathlib

/-!
# Verification of vtds-base configuration composition and stack orchestration

This file gives a shallow embedding, in Lean 4, of the configuration
composition engine (`src/vtds_base/config_operations.py`) and the stack
orchestration engine (`src/vtds_base/stack.py`) of the vtds-base repository,
and proves the specified properties about them.

Configuration values (parsed YAML) are modelled by the inductive type `Value`;
mappings (Python `dict`) are modelled as insertion-ordered association lists,
matching Python dict semantics: assignment to an existing key updates the
value in place keeping its position, assignment to a fresh key appends it at
the end.  Python exceptions are modelled with `Except`; the in-place mutation
that `expand_inheritance` performs on the configuration collection is modelled
by explicitly returning the updated collection alongside the result.
-/

namespace VtdsBase

/-- A parsed YAML configuration value: null, boolean, integer, string,
sequence, or mapping.  A mapping is an insertion-ordered association list of
string keys to values, mirroring a Python `dict`. -/
inductive Value where
  | null : Value
  | bool (b : Bool) : Value
  | int (n : Int) : Value
  | str (s : String) : Value
  | list (xs : List Value) : Value
  | dict (entries : List (String × Value)) : Value

/-- The entry list of a mapping: string keys paired with values, in
insertion order. -/
abbrev Entries := List (String × Value)

/-- `isinstance(v, dict)` in the Python source. -/
def Value.isDict : Value → Bool
  | .dict _ => true
  | _ => false

/-- `d[k]` and `k in d` combined: the first value bound to key `k` in the
entry list, if any (Python dicts never hold duplicate keys, so "first" is
exact on every value the source builds). -/
def lookupVal (es : Entries) (k : String) : Option Value :=
  match es with
  | [] => none
  | (k', v) :: rest => if k' = k then some v else lookupVal rest k

/-- Python `d[k] = v`: update in place if the key is present (keeping its
position), append at the end otherwise. -/
def setEntry (es : Entries) (k : String) (v : Value) : Entries :=
  match es with
  | [] => [(k, v)]
  | (k', w) :: rest =>
      if k' = k then (k', v) :: rest else (k', w) :: setEntry rest k v

mutual

/-- `merge_configs` from `src/vtds_base/config_operations.py`: if either the
base or the overlay is not a dictionary the result is simply the overlay;
otherwise the two dictionaries are merged by `mergeDicts`. -/
def merge_configs : Value → Value → Value
  | Value.dict base, Value.dict overlay => Value.dict (mergeDicts base overlay)
  | _, overlay => overlay

/-- The body of `merge_configs` for two dictionaries: the first loop populates
the new config with all items of the base appropriately overlaid, the second
loop appends the overlay items whose keys are not in the base. -/
def mergeDicts (base overlay : Entries) : Entries :=
  mergeBase base overlay ++
    overlay.filter (fun p => (lookupVal base p.1).isNone)

/-- The first loop of `merge_configs`: for each base key, if the base value is
a dict and the key is in the overlay, merge recursively; if the key is in the
overlay and the base value is not a dict, take the overlay value; otherwise
keep the base value. -/
def mergeBase : Entries → Entries → Entries
  | [], _ => []
  | (k, v) :: rest, overlay =>
      (k, match lookupVal overlay k with
          | some ov => if v.isDict then merge_configs v ov else ov
          | none => v) :: mergeBase rest overlay

end

/-! ## Inheritance expansion (`expand_inheritance`)

The named collection `configs` is a mapping from configuration name to a
configuration tree; as the spec's NamedConfigCollection, every stored
configuration is itself a mapping, so the collection is modelled as an
insertion-ordered association list from `String` to `Entries`.

The Python function mutates state in two ways, both modelled explicitly:
it appends the visited name to the shared `ancestry` list (modelled by
passing `ancestry ++ [config_name]` to the recursive call, which produces the
same list values), and when a looked-up configuration has no
`pure_base_class` key it assigns `False` into the stored dictionary itself
(modelled by threading the updated collection through the computation and
returning it).  Python exceptions become `Except.error`; recursion depth is
bounded by explicit fuel, with `configs.length + 1` (used by `expand_top`)
always sufficient since every successfully visited name is a distinct key of
the collection. -/

/-- A named collection of configuration trees. -/
abbrev Configs := List (String × Entries)

/-- `configs[config_name]`, as a total function returning `Option`. -/
def lookupConfig (cs : Configs) (name : String) : Option Entries :=
  match cs with
  | [] => none
  | (n, c) :: rest => if n = name then some c else lookupConfig rest name

/-- Assignment into the collection (update-in-place dict semantics). -/
def setConfig (cs : Configs) (name : String) (c : Entries) : Configs :=
  match cs with
  | [] => [(name, c)]
  | (n, c') :: rest =>
      if n = name then (n, c) :: rest else (n, c') :: setConfig rest name c

/-- `configs.keys()`. -/
def keysOf (cs : Configs) : List String := cs.map Prod.fst

/-- The `ContextualError`s raised by `expand_inheritance`, distinguished by
the condition that raised them.  `notFound` is the "cannot find config
sub-tree named ... in config list ..." error raised on a `KeyError`;
`badParent` is the same error as raised by the recursive call when the
`parent_class` value is neither null nor a string (such a value can never
match a string key of the collection); `circularInheritance` is the
"circular dependency" error carrying the top-level name, the repeated parent
and the full visited chain.  `fuelExhausted` marks exhaustion of the explicit
recursion fuel of the model and corresponds to no Python behaviour. -/
inductive ConfigError where
  | notFound (name : String) (known : List String)
  | badParent (parent : Value) (known : List String)
  | circularInheritance (top : String) (parent : String) (chain : List String)
  | fuelExhausted

/-- The `pure_base_class` defaulting step of `expand_inheritance`: if the
looked-up configuration has no `pure_base_class` key, assign `False` to it —
an in-place mutation of the dictionary stored in the collection, visible both
in the collection and in the local view of the configuration. -/
def defaultPureBase (configs : Configs) (config_name : String)
    (config : Entries) : Configs × Entries :=
  match lookupVal config "pure_base_class" with
  | some _ => (configs, config)
  | none =>
      let config' := setEntry config "pure_base_class" (Value.bool false)
      (setConfig configs config_name config', config')

/-- `expand_inheritance` from `src/vtds_base/config_operations.py`: expand
the configuration named `config_name` within `configs`, merging it on top of
its recursively expanded parent chain.  Returns the (possibly mutated)
collection together with the expansion result or error. -/
def expand_inheritance (configs : Configs) (config_name : String)
    (ancestry : List String) (top_config : String) :
    Nat → Configs × Except ConfigError Entries
  | 0 => (configs, Except.error ConfigError.fuelExhausted)
  | fuel + 1 =>
    let ancestry' := ancestry ++ [config_name]
    match lookupConfig configs config_name with
    | none =>
        (configs, Except.error (ConfigError.notFound config_name (keysOf configs)))
    | some found =>
        match defaultPureBase configs config_name found with
        | (configs', config) =>
          match lookupVal config "parent_class" with
          | none => (configs', Except.ok config)
          | some Value.null => (configs', Except.ok config)
          | some (Value.str parent) =>
              if parent ∈ ancestry' then
                (configs',
                 Except.error (ConfigError.circularInheritance top_config parent
                   (ancestry' ++ [parent])))
              else
                match expand_inheritance configs' parent ancestry' top_config fuel with
                | (configs'', Except.error e) => (configs'', Except.error e)
                | (configs'', Except.ok parent_config) =>
                    (configs'',
                     Except.ok (setEntry (mergeDicts parent_config config)
                       "parent_class" Value.null))
          | some v =>
              (configs', Except.error (ConfigError.badParent v (keysOf configs')))

/-- The external entry point: `expand_inheritance(configs, config_name)` with
`ancestry` starting empty and `top_config` defaulting to `config_name`.  The
fuel `configs.length + 1` covers every parent chain the collection can hold. -/
def expand_top (configs : Configs) (config_name : String) :
    Configs × Except ConfigError Entries :=
  expand_inheritance configs config_name [] config_name (configs.length + 1)

/-! ## Specification-side descriptions of expansion

These definitions follow the specification's words, to be compared with the
embedded code: the per-node `pure_base_class` defaulting, the bottom-up fold
of `merge` over an ancestry chain, and the in-place defaulting the collection
undergoes. -/

/-- A configuration tree with `pure_base_class` defaulted to false when the
key is absent (the per-node defaulting the specification describes). -/
def defaulted (c : Entries) : Entries :=
  match lookupVal c "pure_base_class" with
  | some _ => c
  | none => setEntry c "pure_base_class" (Value.bool false)

/-- A tree has no parent to expand: `parent_class` absent or null. -/
def parentTerminal (c : Entries) : Prop :=
  lookupVal c "parent_class" = none ∨ lookupVal c "parent_class" = some Value.null

/-- The consecutive-link relation of a (child-first) ancestry chain: each
tree's `parent_class` names the next element. -/
def parentLink (a b : String × Entries) : Prop :=
  lookupVal a.2 "parent_class" = some (Value.str b.1)

/-- Bottom-up fold of `merge` over a root-first list of trees: the oldest
ancestor is the base and each descendant is merged on top, every tree taken
with its per-node `pure_base_class` defaulting. -/
def foldMerge : List Entries → Entries
  | [] => []
  | c :: rest => rest.foldl (fun acc d => mergeDicts acc (defaulted d)) (defaulted c)

/-- The expansion result the specification describes for a child-first
ancestry chain: for a single tree, the tree with `pure_base_class`
defaulted; for a longer chain, the bottom-up fold of `merge` with
`parent_class` cleared (set to null) in the result. -/
def specExpansion (chain : List (String × Entries)) : Entries :=
  match chain with
  | [] => []
  | [p] => defaulted p.2
  | _ => setEntry (foldMerge (chain.reverse.map Prod.snd)) "parent_class" Value.null

/-- One in-place `pure_base_class` defaulting of a stored entry, as the
collection sees it. -/
def defaultStep (configs : Configs) (p : String × Entries) : Configs :=
  match lookupVal p.2 "pure_base_class" with
  | some _ => configs
  | none => setConfig configs p.1 (setEntry p.2 "pure_base_class" (Value.bool false))

/-- The collection after the in-place defaulting of every tree of a visited
chain. -/
def defaultAll (configs : Configs) (chain : List (String × Entries)) : Configs :=
  chain.foldl defaultStep configs

/-! ## The layer stack (`stack.py`)

A layer module is resolved by `importlib` to its `LayerAPI` class and its
`BaseConfig` payload; the resolution is modelled by a function
`load : String → LayerData` giving, per module name, the parsed base
configuration, its raw text, and the test overlay.  A constructed `Layer`
records its module name, whether it is the core layer, its configuration
payload, and its instantiated API — `none` until `initialize`, and forever
`none` for the core layer.  The API object of an initialized layer is
identified by a `String` tag (distinct per layer in any run, matching Python
object identity); lifecycle phases are modelled as functions from that tag to
a success-or-error outcome, and a phase sweep returns the ordered trace of
API tags invoked together with the outcome. -/

/-- The configuration payload a layer module provides through its
`BaseConfig` implementation. -/
structure LayerData where
  base_config : Value
  base_config_text : String
  test_overlay : Value

/-- A constructed vTDS layer (`Layer.__init__`): the module is imported, its
payload captured, and `layer_api` left unset until initialization. -/
structure Layer where
  module_name : String
  is_core : Bool
  base_config : Value
  base_config_text : String
  test_overlay : Value
  layer_api : Option String

/-- Build a `Layer` from a module name (`Layer.__init__`). -/
def mkLayer (load : String → LayerData) (module_name : String)
    (is_core : Bool) : Layer :=
  { module_name := module_name
    is_core := is_core
    base_config := (load module_name).base_config
    base_config_text := (load module_name).base_config_text
    test_overlay := (load module_name).test_overlay
    layer_api := none }

/-- `Layer.initialize`: a no-op for the core layer, otherwise instantiate the
layer API (tagged here by the module name). -/
def initLayer (l : Layer) : Layer :=
  if l.is_core then l else { l with layer_api := some l.module_name }

/-- `__construct_layer__`: a `Layer` for a truthy module name, `None` when
the name is `None` or empty. -/
def construct_layer (load : String → LayerData) (name : Option String)
    (is_core : Bool) : Option Layer :=
  match name with
  | none => none
  | some s => if s = "" then none else some (mkLayer load s is_core)

/-- The core module name defaulting in `VTDSStack.__init__`:
`core_name = "vtds_core" if not core_name else core_name`. -/
def core_module_name (core_name : Option String) : String :=
  match core_name with
  | none => "vtds_core"
  | some s => if s = "" then "vtds_core" else s

/-- The full stack of layers with the final configuration slot (`None` until
`initialize`). -/
structure VTDSStack where
  application : Option Layer
  cluster : Option Layer
  platform : Option Layer
  provider : Option Layer
  core : Option Layer
  config : Option Value

/-- `VTDSStack.__init__`: construct each slot from its module name; the core
slot name is defaulted first and the core layer is constructed with
`is_core=True`. -/
def vtds_stack (load : String → LayerData)
    (application_name cluster_name platform_name provider_name
     core_name : Option String) : VTDSStack :=
  { application := construct_layer load application_name false
    cluster := construct_layer load cluster_name false
    platform := construct_layer load platform_name false
    provider := construct_layer load provider_name false
    core := construct_layer load (some (core_module_name core_name)) true
    config := none }

/-- `VTDSStack.initialize`: initialize every present layer and store the
supplied configuration (build-directory creation is outside this model). -/
def stack_init (s : VTDSStack) (config : Value) : VTDSStack :=
  { application := s.application.map initLayer
    cluster := s.cluster.map initLayer
    platform := s.platform.map initLayer
    provider := s.provider.map initLayer
    core := s.core.map initLayer
    config := some config }

/-- `layer.get_api() if layer else None`. -/
def apiOf (l : Option Layer) : Option String := l.bind Layer.layer_api

/-- `VTDSStack.__active_apis__`: the provided list, or the default order
provider, platform, cluster, application; `None` entries filtered out. -/
def active_apis (s : VTDSStack) (api_list : Option (List (Option String))) :
    List String :=
  (match api_list with
   | none => [apiOf s.provider, apiOf s.platform, apiOf s.cluster,
              apiOf s.application]
   | some l => l).filterMap id

/-- `VTDSStack.__active_configs__`: the base-config payloads of present
layers in the order provider, platform, cluster, application, core. -/
def active_configs (s : VTDSStack) : List Layer :=
  [s.provider, s.platform, s.cluster, s.application, s.core].filterMap id

/-- Run one lifecycle phase over a list of APIs: call each in order, abort on
the first failure; returns the ordered trace of APIs invoked and the
outcome.  The error of a failing call propagates to the caller unchanged. -/
def run_apis {ε : Type} (apis : List String) (call : String → Except ε Unit) :
    List String × Except ε Unit :=
  match apis with
  | [] => ([], Except.ok ())
  | a :: rest =>
      match call a with
      | Except.error e => ([a], Except.error e)
      | Except.ok _ =>
          match run_apis rest call with
          | (trace, out) => (a :: trace, out)

/-- `VTDSStack.deploy`: bottom to top, in the default active-API order. -/
def stack_deploy {ε : Type} (s : VTDSStack) (call : String → Except ε Unit) :
    List String × Except ε Unit :=
  run_apis (active_apis s none) call

/-- `VTDSStack.remove`: top to bottom — application, cluster, platform,
provider — to avoid pulling a dependency out from under an upper layer. -/
def stack_remove {ε : Type} (s : VTDSStack) (call : String → Except ε Unit) :
    List String × Except ε Unit :=
  run_apis (active_apis s (some
    [apiOf s.application, apiOf s.cluster, apiOf s.platform,
     apiOf s.provider])) call

/-- The error of `VTDSStack.get_final_config` when called before
`initialize` ("can't request stack configuration before calling
initialize()"). -/
inductive StackError where
  | preconditionError

/-- `VTDSStack.get_base_config`: collate and merge the base configurations of
all present layers, starting from an empty tree. -/
def get_base_config (s : VTDSStack) : Value :=
  (active_configs s).foldl (fun ret l => merge_configs ret l.base_config)
    (Value.dict [])

/-- `VTDSStack.get_base_config_text`: concatenate the annotated base
configuration texts of all present layers, each followed by a newline. -/
def get_base_config_text (s : VTDSStack) : String :=
  (active_configs s).foldl (fun ret l => ret ++ l.base_config_text ++ "\n") ""

/-- `VTDSStack.get_test_config`: the base configuration with every present
layer's test overlay merged on top, in the same order. -/
def get_test_config (s : VTDSStack) : Value :=
  (active_configs s).foldl (fun bc l => merge_configs bc l.test_overlay)
    (get_base_config s)

/-- `VTDSStack.get_final_config`: the stored configuration, or a
precondition error when `initialize` has not completed. -/
def get_final_config (s : VTDSStack) : Except StackError Value :=
  match s.config with
  | none => Except.error StackError.preconditionError
  | some c => Except.ok c

/-! ## Lookup lemmas for merged dictionaries -/

theorem lookupVal_append (a b : Entries) (k : String) :
    lookupVal (a ++ b) k =
      match lookupVal a k with
      | some v => some v
      | none => lookupVal b k := by
  induction a with
  | nil => simp [lookupVal]
  | cons p rest ih =>
      obtain ⟨k', v⟩ := p
      by_cases h : k' = k <;> simp [lookupVal, h, ih]

theorem lookupVal_filter_key (o : Entries) (q : String → Bool) (k : String) :
    lookupVal (o.filter (fun p => q p.1)) k =
      if q k then lookupVal o k else none := by
  induction o with
  | nil => simp [lookupVal]
  | cons p rest ih =>
      obtain ⟨k', v⟩ := p
      by_cases h : k' = k
      · subst h
        by_cases hq : q k' <;> simp [lookupVal, hq, ih]
      · by_cases hq : q k' <;> simp [lookupVal, h, hq, ih]

theorem lookupVal_mergeBase (b o : Entries) (k : String) :
    lookupVal (mergeBase b o) k =
      (lookupVal b k).map (fun v =>
        match lookupVal o k with
        | some ov => if v.isDict then merge_configs v ov else ov
        | none => v) := by
  induction b with
  | nil => simp [mergeBase, lookupVal]
  | cons p rest ih =>
      obtain ⟨k', v⟩ := p
      by_cases h : k' = k <;> simp [mergeBase, lookupVal, h, ih]

/-- Full characterization of lookups in the merge of two dictionaries:
for keys in both, the overlay wins unless the base value is a dict, in which
case the values are merged recursively; keys only in one side keep that
side's value. -/
theorem lookupVal_mergeDicts (b o : Entries) (k : String) :
    lookupVal (mergeDicts b o) k =
      match lookupVal b k with
      | some v => some (match lookupVal o k with
                        | some ov => if v.isDict then merge_configs v ov else ov
                        | none => v)
      | none => lookupVal o k := by
  rw [mergeDicts, lookupVal_append, lookupVal_mergeBase,
    lookupVal_filter_key o (fun k => (lookupVal b k).isNone) k]
  cases h : lookupVal b k <;> simp [h]

/-- When the base value is a dict but the overlay value is not, the recursive
merge just returns the overlay value (the `isinstance` check at the top of
`merge_configs`). -/
theorem merge_configs_nonDict_overlay (v ov : Value) (h : ov.isDict = false) :
    merge_configs v ov = ov := by
  cases v <;> cases ov <;> simp_all [merge_configs, Value.isDict]

/-! ## Assignment lemmas -/

theorem lookupVal_setEntry (es : Entries) (k k' : String) (v : Value) :
    lookupVal (setEntry es k v) k' =
      if k = k' then some v else lookupVal es k' := by
  induction es with
  | nil => by_cases h : k = k' <;> simp [setEntry, lookupVal, h]
  | cons p rest ih =>
      obtain ⟨k'', w⟩ := p
      by_cases h1 : k'' = k
      · subst h1
        by_cases h2 : k'' = k' <;> simp [setEntry, lookupVal, h2]
      · by_cases h2 : k'' = k'
        · subst h2
          have h3 : ¬ k = k'' := fun e => h1 e.symm
          simp [setEntry, lookupVal, h1, h3]
        · simp [setEntry, lookupVal, h1, h2, ih]

theorem setEntry_of_lookup_none (es : Entries) (k : String) (v : Value)
    (h : lookupVal es k = none) : setEntry es k v = es ++ [(k, v)] := by
  induction es with
  | nil => simp [setEntry]
  | cons p rest ih =>
      obtain ⟨k', w⟩ := p
      by_cases h1 : k' = k
      · simp [lookupVal, h1] at h
      · simp [lookupVal, h1] at h
        simp [setEntry, h1, ih h]

theorem lookupConfig_setConfig (cs : Configs) (n m : String) (c : Entries) :
    lookupConfig (setConfig cs n c) m =
      if n = m then some c else lookupConfig cs m := by
  induction cs with
  | nil => by_cases h : n = m <;> simp [setConfig, lookupConfig, h]
  | cons p rest ih =>
      obtain ⟨n', c'⟩ := p
      by_cases h1 : n' = n
      · subst h1
        by_cases h2 : n' = m <;> simp [setConfig, lookupConfig, h2]
      · by_cases h2 : n' = m
        · subst h2
          have h3 : ¬ n = n' := fun e => h1 e.symm
          simp [setConfig, lookupConfig, h1, h3]
        · simp [setConfig, lookupConfig, h1, h2, ih]

theorem lookupConfig_mem_keys (cs : Configs) (n : String) (c : Entries)
    (h : lookupConfig cs n = some c) : n ∈ keysOf cs := by
  induction cs with
  | nil => simp [lookupConfig] at h
  | cons p rest ih =>
      obtain ⟨n', c'⟩ := p
      by_cases h1 : n' = n
      · simp [keysOf, h1]
      · simp [lookupConfig, h1] at h
        simpa [keysOf] using Or.inr (ih h)

/-! ## Lemmas about the defaulting step -/

theorem lookupVal_defaulted_ne (c : Entries) (k : String)
    (h : k ≠ "pure_base_class") :
    lookupVal (defaulted c) k = lookupVal c k := by
  unfold defaulted
  cases hl : lookupVal c "pure_base_class" with
  | some v => rfl
  | none => rw [lookupVal_setEntry, if_neg (fun e => h e.symm)]

theorem defaultPureBase_eq (configs : Configs) (n : String) (c : Entries) :
    defaultPureBase configs n c = (defaultStep configs (n, c), defaulted c) := by
  unfold defaultPureBase defaultStep defaulted
  cases hl : lookupVal c "pure_base_class" <;> simp

theorem defaultAll_cons (configs : Configs) (p : String × Entries)
    (chain : List (String × Entries)) :
    defaultAll configs (p :: chain) = defaultAll (defaultStep configs p) chain := by
  simp [defaultAll, List.foldl_cons]

theorem lookupConfig_defaultStep_ne (configs : Configs)
    (p : String × Entries) (m : String) (h : p.1 ≠ m) :
    lookupConfig (defaultStep configs p) m = lookupConfig configs m := by
  unfold defaultStep
  cases lookupVal p.2 "pure_base_class" with
  | some v => rfl
  | none => rw [lookupConfig_setConfig]; simp [h]

theorem keysOf_setConfig_of_mem (cs : Configs) (n : String) (c : Entries)
    (h : n ∈ keysOf cs) : keysOf (setConfig cs n c) = keysOf cs := by
  induction cs with
  | nil => simp [keysOf] at h
  | cons q rest ih =>
      obtain ⟨n', c'⟩ := q
      by_cases h1 : n' = n
      · simp [setConfig, h1, keysOf]
      · have h2 : n ∈ keysOf rest := by
          simp only [keysOf, List.map_cons, List.mem_cons] at h
          rcases h with h | h
          · exact absurd h.symm h1
          · exact h
        have h3 := ih h2
        simp only [keysOf] at h3
        simp [setConfig, h1, keysOf, h3]

/-- The in-place `pure_base_class` defaulting of a present entry never
changes the collection's key list (Python dict assignment to an existing key
keeps the keys). -/
theorem keysOf_defaultStep (configs : Configs) (q : String × Entries)
    (c : Entries) (h : lookupConfig configs q.1 = some c) :
    keysOf (defaultStep configs q) = keysOf configs := by
  unfold defaultStep
  cases lookupVal q.2 "pure_base_class" with
  | some v => rfl
  | none =>
      exact keysOf_setConfig_of_mem configs q.1 _
        (lookupConfig_mem_keys configs q.1 c h)

/-! ## Replacing a non-dict value in the merge base

Setting an already-present key of the base to a non-dict value does not
change the merge with an overlay that also carries that key: the overlay
value wins at that key either way, and the key sets are unchanged. -/

theorem mergeBase_setEntry_nonDict (b o : Entries) (k : String)
    (w : Value) (hw : lookupVal b k = some w) (hwd : w.isDict = false)
    (x : Value) (hxd : x.isDict = false)
    (u : Value) (hu : lookupVal o k = some u) :
    mergeBase (setEntry b k x) o = mergeBase b o := by
  induction b with
  | nil => simp [lookupVal] at hw
  | cons p rest ih =>
      obtain ⟨k', v⟩ := p
      by_cases h1 : k' = k
      · subst h1
        simp [lookupVal] at hw
        subst hw
        simp [setEntry, mergeBase, hu, hwd, hxd]
      · simp [lookupVal, h1] at hw
        simp [setEntry, mergeBase, h1, ih hw]

theorem mergeDicts_setEntry_nonDict (b o : Entries) (k : String)
    (w : Value) (hw : lookupVal b k = some w) (hwd : w.isDict = false)
    (x : Value) (hxd : x.isDict = false)
    (u : Value) (hu : lookupVal o k = some u) :
    mergeDicts (setEntry b k x) o = mergeDicts b o := by
  unfold mergeDicts
  rw [mergeBase_setEntry_nonDict b o k w hw hwd x hxd u hu]
  congr 1
  apply List.filter_congr
  intro p _
  rw [lookupVal_setEntry]
  by_cases h : k = p.1
  · subst h
    simp [hw]
  · simp [h]

theorem foldMerge_append_single (xs : List Entries) (c : Entries)
    (h : xs ≠ []) :
    foldMerge (xs ++ [c]) = mergeDicts (foldMerge xs) (defaulted c) := by
  cases xs with
  | nil => simp at h
  | cons y ys => simp [foldMerge, List.foldl_append]

theorem lookupVal_mergeDicts_overlay_nonDict (x o : Entries) (k : String)
    (w : Value) (ho : lookupVal o k = some w) (hw : w.isDict = false) :
    lookupVal (mergeDicts x o) k = some w := by
  rw [lookupVal_mergeDicts]
  cases hb : lookupVal x k with
  | none => simp [ho]
  | some bv =>
      rw [ho]
      by_cases hd : bv.isDict
      · simp [hd, merge_configs_nonDict_overlay bv w hw]
      · simp [hd]

/-! ## One-step unfoldings of `expand_inheritance` -/

theorem expand_step_notFound (configs : Configs) (n : String)
    (anc : List String) (top : String) (fuel : Nat)
    (hc : lookupConfig configs n = none) :
    expand_inheritance configs n anc top (fuel + 1) =
      (configs, Except.error (ConfigError.notFound n (keysOf configs))) := by
  simp only [expand_inheritance, hc]

theorem expand_step_terminal (configs : Configs) (n : String)
    (anc : List String) (top : String) (fuel : Nat) (c : Entries)
    (hc : lookupConfig configs n = some c) (ht : parentTerminal c) :
    expand_inheritance configs n anc top (fuel + 1) =
      (defaultStep configs (n, c), Except.ok (defaulted c)) := by
  have hpc : lookupVal (defaulted c) "parent_class" =
      lookupVal c "parent_class" :=
    lookupVal_defaulted_ne c "parent_class" (by decide)
  cases ht with
  | inl h => simp only [expand_inheritance, hc, defaultPureBase_eq, hpc, h]
  | inr h => simp only [expand_inheritance, hc, defaultPureBase_eq, hpc, h]

theorem expand_step_circular (configs : Configs) (n : String)
    (anc : List String) (top : String) (fuel : Nat) (c : Entries)
    (p : String) (hc : lookupConfig configs n = some c)
    (hp : lookupVal c "parent_class" = some (Value.str p))
    (hmem : p ∈ anc ++ [n]) :
    expand_inheritance configs n anc top (fuel + 1) =
      (defaultStep configs (n, c),
       Except.error (ConfigError.circularInheritance top p
         (anc ++ [n] ++ [p]))) := by
  have hpc : lookupVal (defaulted c) "parent_class" =
      lookupVal c "parent_class" :=
    lookupVal_defaulted_ne c "parent_class" (by decide)
  simp only [expand_inheritance, hc, defaultPureBase_eq, hpc, hp, if_pos hmem]

theorem expand_step_parent (configs : Configs) (n : String)
    (anc : List String) (top : String) (fuel : Nat) (c : Entries)
    (p : String) (hc : lookupConfig configs n = some c)
    (hp : lookupVal c "parent_class" = some (Value.str p))
    (hmem : p ∉ anc ++ [n]) :
    expand_inheritance configs n anc top (fuel + 1) =
      ((expand_inheritance (defaultStep configs (n, c)) p (anc ++ [n]) top fuel).1,
       match (expand_inheritance (defaultStep configs (n, c)) p (anc ++ [n]) top fuel).2 with
       | Except.error e => Except.error e
       | Except.ok r =>
           Except.ok (setEntry (mergeDicts r (defaulted c))
             "parent_class" Value.null)) := by
  have hpc : lookupVal (defaulted c) "parent_class" =
      lookupVal c "parent_class" :=
    lookupVal_defaulted_ne c "parent_class" (by decide)
  simp only [expand_inheritance, hc, defaultPureBase_eq, hpc, hp, if_neg hmem]
  cases hrec : expand_inheritance (defaultStep configs (n, c)) p (anc ++ [n]) top fuel with
  | mk cs out => cases out <;> simp

/-! ## The specified fold along a chain matches one recursion step -/

/-- Peeling one child off a chain of length at least two: the specified
expansion of the whole chain is the expansion of the parent chain merged
under the defaulted child, with `parent_class` cleared.  The intermediate
`parent_class` clearing of the parent's own expansion is invisible because
the child always carries a string-valued `parent_class` that wins the merge
at that key. -/
theorem specExpansion_cons (n0 : String) (c0 : Entries) (n1 : String)
    (c1 : Entries) (rest : List (String × Entries))
    (h01 : parentLink (n0, c0) (n1, c1))
    (hchain : List.Chain' parentLink ((n1, c1) :: rest)) :
    specExpansion ((n0, c0) :: (n1, c1) :: rest) =
      setEntry (mergeDicts (specExpansion ((n1, c1) :: rest)) (defaulted c0))
        "parent_class" Value.null := by
  cases rest with
  | nil => simp [specExpansion, foldMerge]
  | cons r rs =>
      have hrev : (((n0, c0) :: (n1, c1) :: r :: rs).reverse.map Prod.snd) =
          (((n1, c1) :: r :: rs).reverse.map Prod.snd) ++ [c0] := by
        simp
      have hne : (((n1, c1) :: r :: rs).reverse.map Prod.snd) ≠ [] := by
        simp
      have hfold : foldMerge (((n0, c0) :: (n1, c1) :: r :: rs).reverse.map Prod.snd) =
          mergeDicts (foldMerge (((n1, c1) :: r :: rs).reverse.map Prod.snd))
            (defaulted c0) := by
        rw [hrev, foldMerge_append_single _ _ hne]
      have hF : lookupVal (foldMerge (((n1, c1) :: r :: rs).reverse.map Prod.snd))
          "parent_class" = some (Value.str r.1) := by
        have hrev1 : (((n1, c1) :: r :: rs).reverse.map Prod.snd) =
            ((r :: rs).reverse.map Prod.snd) ++ [c1] := by simp
        have hne1 : ((r :: rs).reverse.map Prod.snd) ≠ [] := by simp
        rw [hrev1, foldMerge_append_single _ _ hne1]
        have hlink : parentLink (n1, c1) r := (List.chain'_cons.mp hchain).1
        have hc1 : lookupVal (defaulted c1) "parent_class" =
            some (Value.str r.1) := by
          rw [lookupVal_defaulted_ne c1 "parent_class" (by decide)]
          exact hlink
        exact lookupVal_mergeDicts_overlay_nonDict _ _ _ _ hc1 (by rfl)
      have hc0 : lookupVal (defaulted c0) "parent_class" =
          some (Value.str n1) := by
        rw [lookupVal_defaulted_ne c0 "parent_class" (by decide)]
        exact h01
      have hmm : mergeDicts
          (setEntry (foldMerge (((n1, c1) :: r :: rs).reverse.map Prod.snd))
            "parent_class" Value.null) (defaulted c0) =
          mergeDicts (foldMerge (((n1, c1) :: r :: rs).reverse.map Prod.snd))
            (defaulted c0) :=
        mergeDicts_setEntry_nonDict _ _ _ _ hF (by rfl) _ (by rfl) _ hc0
      simp only [specExpansion, hfold, hmm]

/-! ## Running `expand_inheritance` along a well-formed ancestry chain -/

/-- Executing `expand_inheritance` along a child-first ancestry chain whose
names are distinct, fully present in the collection, disjoint from the
incoming ancestry, linked by `parent_class`, and terminated by a root with
no (or null) parent: the call succeeds, returns the specified bottom-up
fold, and mutates the collection exactly by the per-node `pure_base_class`
defaulting of the visited entries. -/
theorem expand_chain_ok :
    ∀ (chain : List (String × Entries)) (n0 : String) (c0 : Entries)
      (configs : Configs) (ancestry : List String) (top : String) (fuel : Nat),
      (∀ q ∈ (n0, c0) :: chain, lookupConfig configs q.1 = some q.2) →
      (((n0, c0) :: chain).map Prod.fst).Nodup →
      (∀ m ∈ chain.map Prod.fst, m ∉ ancestry) →
      List.Chain' parentLink ((n0, c0) :: chain) →
      parentTerminal (chain.getLastD (n0, c0)).2 →
      chain.length < fuel →
      expand_inheritance configs n0 ancestry top fuel =
        (defaultAll configs ((n0, c0) :: chain),
         Except.ok (specExpansion ((n0, c0) :: chain))) := by
  intro chain
  induction chain with
  | nil =>
      intro n0 c0 configs ancestry top fuel hlook _ _ _ hterm hfuel
      obtain ⟨f, rfl⟩ : ∃ f, fuel = f + 1 := ⟨fuel - 1, by omega⟩
      have hc0 : lookupConfig configs n0 = some c0 := hlook (n0, c0) (by simp)
      rw [expand_step_terminal configs n0 ancestry top f c0 hc0 (by simpa using hterm)]
      simp [defaultAll, specExpansion]
  | cons hd tl ih =>
      intro n0 c0 configs ancestry top fuel hlook hnodup hanc hchain hterm hfuel
      obtain ⟨n1, c1⟩ := hd
      obtain ⟨f, rfl⟩ : ∃ f, fuel = f + 1 := ⟨fuel - 1, by omega⟩
      have hc0 : lookupConfig configs n0 = some c0 := hlook (n0, c0) (by simp)
      have hlink : parentLink (n0, c0) (n1, c1) := (List.chain'_cons.mp hchain).1
      have hn1tl : n0 ∉ ((n1, c1) :: tl).map Prod.fst := by
        have := hnodup
        simp only [List.map_cons, List.nodup_cons] at this
        exact this.1
      have hne10 : n1 ≠ n0 := by
        intro e
        exact hn1tl (by simp [e])
      have hmem : n1 ∉ ancestry ++ [n0] := by
        intro hm
        rcases List.mem_append.mp hm with h | h
        · exact hanc n1 (by simp) h
        · exact hne10 (by simpa using h)
      rw [expand_step_parent configs n0 ancestry top f c0 n1 hc0
        (by simpa [parentLink] using hlink) hmem]
      have hrec := ih n1 c1 (defaultStep configs (n0, c0)) (ancestry ++ [n0]) top f
        (by
          intro q hq
          have hqn : q.1 ≠ n0 := by
            intro e
            apply hn1tl
            have : q.1 ∈ ((n1, c1) :: tl).map Prod.fst := List.mem_map_of_mem Prod.fst hq
            rwa [e] at this
          rw [lookupConfig_defaultStep_ne configs (n0, c0) q.1 (fun e => hqn e.symm)]
          exact hlook q (by simp [hq]))
        (by
          have := hnodup
          simp only [List.map_cons, List.nodup_cons] at this ⊢
          exact ⟨this.2.1, this.2.2⟩)
        (by
          intro m hm hmem'
          rcases List.mem_append.mp hmem' with h | h
          · exact hanc m (by simp [hm]) h
          · have hmn0 : m = n0 := by simpa using h
            apply hn1tl
            simp only [List.map_cons]
            right
            rwa [hmn0] at hm)
        ((List.chain'_cons.mp hchain).2)
        (by
          have : tl.getLastD (n1, c1) = ((n1, c1) :: tl).getLastD (n0, c0) :=
            (List.getLastD_cons (n0, c0) (n1, c1) tl).symm
          rwa [this])
        (by simpa using Nat.lt_of_succ_lt_succ hfuel)
      rw [hrec]
      rw [specExpansion_cons n0 c0 n1 c1 tl hlink (List.chain'_cons.mp hchain).2]
      simp [defaultAll_cons]

/-- Executing `expand_inheritance` along a child-first chain of distinct,
present, linked names whose last element's parent revisits a name already in
the ancestry (the incoming ancestry or the chain itself): the call fails
with the circular-inheritance error naming the top-level configuration, the
repeated parent, and the full visited chain; the error is propagated to the
caller unchanged, never truncated into a success. -/
theorem expand_chain_cycle :
    ∀ (chain : List (String × Entries)) (n0 : String) (c0 : Entries)
      (configs : Configs) (ancestry : List String) (top : String) (fuel : Nat)
      (p : String),
      (∀ q ∈ (n0, c0) :: chain, lookupConfig configs q.1 = some q.2) →
      (((n0, c0) :: chain).map Prod.fst).Nodup →
      (∀ m ∈ chain.map Prod.fst, m ∉ ancestry) →
      List.Chain' parentLink ((n0, c0) :: chain) →
      lookupVal (chain.getLastD (n0, c0)).2 "parent_class" = some (Value.str p) →
      (p ∈ ancestry ∨ p ∈ ((n0, c0) :: chain).map Prod.fst) →
      chain.length < fuel →
      expand_inheritance configs n0 ancestry top fuel =
        (defaultAll configs ((n0, c0) :: chain),
         Except.error (ConfigError.circularInheritance top p
           (ancestry ++ ((n0, c0) :: chain).map Prod.fst ++ [p]))) := by
  intro chain
  induction chain with
  | nil =>
      intro n0 c0 configs ancestry top fuel p hlook _ _ _ hp hpmem hfuel
      obtain ⟨f, rfl⟩ : ∃ f, fuel = f + 1 := ⟨fuel - 1, by omega⟩
      have hc0 : lookupConfig configs n0 = some c0 := hlook (n0, c0) (by simp)
      have hmem : p ∈ ancestry ++ [n0] := by
        rcases hpmem with h | h
        · exact List.mem_append.mpr (Or.inl h)
        · exact List.mem_append.mpr (Or.inr (by simpa using h))
      rw [expand_step_circular configs n0 ancestry top f c0 p hc0
        (by simpa using hp) hmem]
      simp [defaultAll]
  | cons hd tl ih =>
      intro n0 c0 configs ancestry top fuel p hlook hnodup hanc hchain hp hpmem hfuel
      obtain ⟨n1, c1⟩ := hd
      obtain ⟨f, rfl⟩ : ∃ f, fuel = f + 1 := ⟨fuel - 1, by omega⟩
      have hc0 : lookupConfig configs n0 = some c0 := hlook (n0, c0) (by simp)
      have hlink : parentLink (n0, c0) (n1, c1) := (List.chain'_cons.mp hchain).1
      have hn1tl : n0 ∉ ((n1, c1) :: tl).map Prod.fst := by
        have := hnodup
        simp only [List.map_cons, List.nodup_cons] at this
        exact this.1
      have hne10 : n1 ≠ n0 := by
        intro e
        exact hn1tl (by simp [e])
      have hmem : n1 ∉ ancestry ++ [n0] := by
        intro hm
        rcases List.mem_append.mp hm with h | h
        · exact hanc n1 (by simp) h
        · exact hne10 (by simpa using h)
      rw [expand_step_parent configs n0 ancestry top f c0 n1 hc0
        (by simpa [parentLink] using hlink) hmem]
      have hrec := ih n1 c1 (defaultStep configs (n0, c0)) (ancestry ++ [n0]) top f p
        (by
          intro q hq
          have hqn : q.1 ≠ n0 := by
            intro e
            apply hn1tl
            have : q.1 ∈ ((n1, c1) :: tl).map Prod.fst := List.mem_map_of_mem Prod.fst hq
            rwa [e] at this
          rw [lookupConfig_defaultStep_ne configs (n0, c0) q.1 (fun e => hqn e.symm)]
          exact hlook q (by simp [hq]))
        (by
          have := hnodup
          simp only [List.map_cons, List.nodup_cons] at this ⊢
          exact ⟨this.2.1, this.2.2⟩)
        (by
          intro m hm hmem'
          rcases List.mem_append.mp hmem' with h | h
          · exact hanc m (by simp [hm]) h
          · have hmn0 : m = n0 := by simpa using h
            apply hn1tl
            simp only [List.map_cons]
            right
            rwa [hmn0] at hm)
        ((List.chain'_cons.mp hchain).2)
        (by
          have : tl.getLastD (n1, c1) = ((n1, c1) :: tl).getLastD (n0, c0) :=
            (List.getLastD_cons (n0, c0) (n1, c1) tl).symm
          rwa [this])
        (by
          rcases hpmem with h | h
          · exact Or.inl (List.mem_append.mpr (Or.inl h))
          · simp only [List.map_cons, List.mem_cons] at h
            rcases h with h | h
            · exact Or.inl (List.mem_append.mpr (Or.inr (by simp [h])))
            · exact Or.inr (by simpa using h))
        (by simpa using Nat.lt_of_succ_lt_succ hfuel)
      rw [hrec]
      simp [defaultAll_cons, List.append_assoc]

/-- Executing `expand_inheritance` along a child-first chain of distinct,
present, linked names whose last element's parent is a name that is neither
in the ancestry nor a key of the collection: the recursive call on the
missing parent fails with the not-found error naming that parent and the
collection's known keys (unchanged by the in-place defaulting), and the
error is propagated to the caller unchanged. -/
theorem expand_chain_notFound :
    ∀ (chain : List (String × Entries)) (n0 : String) (c0 : Entries)
      (configs : Configs) (ancestry : List String) (top : String) (fuel : Nat)
      (p : String),
      (∀ q ∈ (n0, c0) :: chain, lookupConfig configs q.1 = some q.2) →
      (((n0, c0) :: chain).map Prod.fst).Nodup →
      (∀ m ∈ chain.map Prod.fst, m ∉ ancestry) →
      List.Chain' parentLink ((n0, c0) :: chain) →
      lookupVal (chain.getLastD (n0, c0)).2 "parent_class" = some (Value.str p) →
      p ∉ ancestry →
      p ∉ ((n0, c0) :: chain).map Prod.fst →
      lookupConfig configs p = none →
      chain.length + 1 < fuel →
      expand_inheritance configs n0 ancestry top fuel =
        (defaultAll configs ((n0, c0) :: chain),
         Except.error (ConfigError.notFound p (keysOf configs))) := by
  intro chain
  induction chain with
  | nil =>
      intro n0 c0 configs ancestry top fuel p hlook _ _ _ hp hpanc hpnames hpnone hfuel
      obtain ⟨f, rfl⟩ : ∃ f, fuel = f + 1 + 1 := ⟨fuel - 2, by omega⟩
      have hc0 : lookupConfig configs n0 = some c0 := hlook (n0, c0) (by simp)
      have hpn0 : p ≠ n0 := by
        intro e
        exact hpnames (by simp [e])
      have hmem : p ∉ ancestry ++ [n0] := by
        intro hm
        rcases List.mem_append.mp hm with h | h
        · exact hpanc h
        · exact hpn0 (by simpa using h)
      rw [expand_step_parent configs n0 ancestry top (f + 1) c0 p hc0
        (by simpa using hp) hmem]
      have hlookp : lookupConfig (defaultStep configs (n0, c0)) p = none := by
        rw [lookupConfig_defaultStep_ne configs (n0, c0) p (Ne.symm hpn0)]
        exact hpnone
      rw [expand_step_notFound (defaultStep configs (n0, c0)) p
        (ancestry ++ [n0]) top f hlookp]
      simp [defaultAll, keysOf_defaultStep configs (n0, c0) c0 hc0]
  | cons hd tl ih =>
      intro n0 c0 configs ancestry top fuel p hlook hnodup hanc hchain hp hpanc hpnames hpnone hfuel
      obtain ⟨n1, c1⟩ := hd
      obtain ⟨f, rfl⟩ : ∃ f, fuel = f + 1 := ⟨fuel - 1, by omega⟩
      have hc0 : lookupConfig configs n0 = some c0 := hlook (n0, c0) (by simp)
      have hlink : parentLink (n0, c0) (n1, c1) := (List.chain'_cons.mp hchain).1
      have hn1tl : n0 ∉ ((n1, c1) :: tl).map Prod.fst := by
        have := hnodup
        simp only [List.map_cons, List.nodup_cons] at this
        exact this.1
      have hne10 : n1 ≠ n0 := by
        intro e
        exact hn1tl (by simp [e])
      have hpn0 : p ≠ n0 := by
        intro e
        exact hpnames (by simp [e])
      have hmem : n1 ∉ ancestry ++ [n0] := by
        intro hm
        rcases List.mem_append.mp hm with h | h
        · exact hanc n1 (by simp) h
        · exact hne10 (by simpa using h)
      rw [expand_step_parent configs n0 ancestry top f c0 n1 hc0
        (by simpa [parentLink] using hlink) hmem]
      have hrec := ih n1 c1 (defaultStep configs (n0, c0)) (ancestry ++ [n0]) top f p
        (by
          intro q hq
          have hqn : q.1 ≠ n0 := by
            intro e
            apply hn1tl
            have : q.1 ∈ ((n1, c1) :: tl).map Prod.fst := List.mem_map_of_mem Prod.fst hq
            rwa [e] at this
          rw [lookupConfig_defaultStep_ne configs (n0, c0) q.1 (fun e => hqn e.symm)]
          exact hlook q (by simp [hq]))
        (by
          have := hnodup
          simp only [List.map_cons, List.nodup_cons] at this ⊢
          exact ⟨this.2.1, this.2.2⟩)
        (by
          intro m hm hmem'
          rcases List.mem_append.mp hmem' with h | h
          · exact hanc m (by simp [hm]) h
          · have hmn0 : m = n0 := by simpa using h
            apply hn1tl
            simp only [List.map_cons]
            right
            rwa [hmn0] at hm)
        ((List.chain'_cons.mp hchain).2)
        (by
          have : tl.getLastD (n1, c1) = ((n1, c1) :: tl).getLastD (n0, c0) :=
            (List.getLastD_cons (n0, c0) (n1, c1) tl).symm
          rwa [this])
        (by
          intro hm
          rcases List.mem_append.mp hm with h | h
          · exact hpanc h
          · exact hpn0 (by simpa using h))
        (by
          intro hm
          apply hpnames
          simp only [List.map_cons, List.mem_cons] at hm ⊢
          exact Or.inr hm)
        (by
          rw [lookupConfig_defaultStep_ne configs (n0, c0) p (Ne.symm hpn0)]
          exact hpnone)
        (by
          simp only [List.length_cons] at hfuel
          omega)
      rw [hrec]
      simp [defaultAll_cons, keysOf_defaultStep configs (n0, c0) c0 hc0]

/-! ## The claims -/

/-- C1: for every pair of inputs, if either input is not a mapping,
`merge_configs(base, overlay)` equals exactly the overlay value; otherwise
the result is a mapping containing every key present in base or overlay,
where for keys present in both the overlay's value wins unless both values
are mappings (in which case the result at that key is the merge applied
recursively), keys only in base keep the base value, and keys only in
overlay keep the overlay value. -/
theorem merge_configs_correct :
    (∀ base overlay : Value,
        base.isDict = false ∨ overlay.isDict = false →
        merge_configs base overlay = overlay) ∧
    (∀ b o : Entries,
        (merge_configs (Value.dict b) (Value.dict o)).isDict = true) ∧
    (∀ (b o : Entries) (k : String),
        (lookupVal (mergeDicts b o) k).isSome ↔
          (lookupVal b k).isSome ∨ (lookupVal o k).isSome) ∧
    (∀ (b o : Entries) (k : String),
        lookupVal (mergeDicts b o) k =
          match lookupVal b k, lookupVal o k with
          | some bv, some ov =>
              some (if bv.isDict && ov.isDict then merge_configs bv ov else ov)
          | some bv, none => some bv
          | none, some ov => some ov
          | none, none => none) := by
  refine ⟨?_, ?_, ?_, ?_⟩
  · intro base overlay h
    cases base <;> cases overlay <;> simp_all [merge_configs, Value.isDict]
  · intro b o
    simp [merge_configs, Value.isDict]
  · intro b o k
    rw [lookupVal_mergeDicts]
    cases hb : lookupVal b k <;> cases ho : lookupVal o k <;> simp
  · intro b o k
    rw [lookupVal_mergeDicts]
    cases hb : lookupVal b k with
    | none => cases ho : lookupVal o k <;> simp
    | some bv =>
        cases ho : lookupVal o k with
        | none => simp
        | some ov =>
            by_cases hd : bv.isDict
            · by_cases hod : ov.isDict
              · simp [hd, hod]
              · simp only [hd, if_pos]
                rw [merge_configs_nonDict_overlay bv ov
                  (by simp [Bool.not_eq_true] at hod; exact hod)]
                simp [hod]
            · simp [hd]

/-- Witness for C1 at concrete inputs: a non-mapping base is completely
replaced by the overlay, and for two concrete mappings the lookup
characterization holds. -/
theorem merge_configs_correct_witness :
    merge_configs (Value.int 1) (Value.list []) = Value.list [] ∧
    lookupVal (mergeDicts [("a", Value.int 1)] [("b", Value.int 2)]) "b" =
      some (Value.int 2) := by
  constructor
  · exact merge_configs_correct.1 (Value.int 1) (Value.list []) (Or.inl (by rfl))
  · rw [merge_configs_correct.2.2.2 [("a", Value.int 1)] [("b", Value.int 2)] "b"]
    rfl

/-- C2: for every named collection and every name whose parent chain is
acyclic and fully present in the collection, `expand` returns the bottom-up
fold of `merge` over the ancestry chain (oldest ancestor as the base, each
descendant merged on top, each tree taken with its per-node
`pure_base_class` defaulting), with `parent_class` cleared in the result; in
the terminal case where the named tree has no `parent_class`, `expand`
returns that tree unchanged except for an added `pure_base_class: false`
when that key was absent. -/
theorem expand_inheritance_fold_correct :
    (∀ (configs : Configs) (n0 : String) (c0 : Entries)
       (chain : List (String × Entries)),
       (∀ q ∈ (n0, c0) :: chain, lookupConfig configs q.1 = some q.2) →
       (((n0, c0) :: chain).map Prod.fst).Nodup →
       List.Chain' parentLink ((n0, c0) :: chain) →
       parentTerminal (chain.getLastD (n0, c0)).2 →
       (expand_top configs n0).2 =
         Except.ok (specExpansion ((n0, c0) :: chain))) ∧
    (∀ (configs : Configs) (n : String) (c : Entries),
       lookupConfig configs n = some c →
       lookupVal c "parent_class" = none →
       (expand_top configs n).2 = Except.ok
         (match lookupVal c "pure_base_class" with
          | some _ => c
          | none => c ++ [("pure_base_class", Value.bool false)])) := by
  constructor
  · intro configs n0 c0 chain hlook hnodup hchain hterm
    have hsub : ((n0, c0) :: chain).map Prod.fst ⊆ keysOf configs := by
      intro m hm
      obtain ⟨q, hq, rfl⟩ := List.mem_map.mp hm
      exact lookupConfig_mem_keys configs q.1 q.2 (hlook q hq)
    have hlen : (((n0, c0) :: chain).map Prod.fst).length ≤
        (keysOf configs).length :=
      (hnodup.subperm hsub).length_le
    have hfuel : chain.length < configs.length + 1 := by
      simp only [List.length_map, List.length_cons, keysOf] at hlen
      omega
    rw [expand_top, expand_chain_ok chain n0 c0 configs [] n0
      (configs.length + 1) hlook hnodup (by simp) hchain hterm hfuel]
  · intro configs n c hc hp
    rw [expand_top, expand_step_terminal configs n [] n configs.length c hc
      (Or.inl hp)]
    unfold defaulted
    cases hpb : lookupVal c "pure_base_class" with
    | some v => simp
    | none => simp [setEntry_of_lookup_none c "pure_base_class" (Value.bool false) hpb]

/-- Witness for C2: a concrete 3-level chain (grandparent, parent, child)
expands to the specified fold, and a concrete parentless tree is returned
with only `pure_base_class: false` added. -/
theorem expand_inheritance_fold_correct_witness :
    (expand_top
      [("child", [("parent_class", Value.str "par"), ("x", Value.int 3)]),
       ("par", [("parent_class", Value.str "gp"), ("y", Value.int 2)]),
       ("gp", [("z", Value.int 1)])] "child").2 =
      Except.ok (specExpansion
        [("child", [("parent_class", Value.str "par"), ("x", Value.int 3)]),
         ("par", [("parent_class", Value.str "gp"), ("y", Value.int 2)]),
         ("gp", [("z", Value.int 1)])]) ∧
    (expand_top [("solo", [("k", Value.int 5)])] "solo").2 =
      Except.ok ([("k", Value.int 5)] ++ [("pure_base_class", Value.bool false)]) := by
  constructor
  · apply expand_inheritance_fold_correct.1
      [("child", [("parent_class", Value.str "par"), ("x", Value.int 3)]),
       ("par", [("parent_class", Value.str "gp"), ("y", Value.int 2)]),
       ("gp", [("z", Value.int 1)])] "child"
      [("parent_class", Value.str "par"), ("x", Value.int 3)]
      [("par", [("parent_class", Value.str "gp"), ("y", Value.int 2)]),
       ("gp", [("z", Value.int 1)])]
    · intro q hq
      simp only [List.mem_cons, List.not_mem_nil, or_false] at hq
      rcases hq with h | h | h <;> subst h <;> rfl
    · decide
    · refine List.chain'_cons.mpr ⟨rfl, List.chain'_cons.mpr ⟨rfl, ?_⟩⟩
      simp
    · exact Or.inl rfl
  · exact expand_inheritance_fold_correct.2 [("solo", [("k", Value.int 5)])]
      "solo" [("k", Value.int 5)] rfl rfl

/-- C3: for every named collection and every name whose parent chain
revisits a name already in its own ancestry (including the length-1 case of
a configuration naming itself as `parent_class`), `expand` fails with the
circular-inheritance error naming the full cycle — never a silent
truncation or success; a name absent from the collection — whether the
expanded top-level name itself, or a parent reached through the chain —
fails with the not-found error naming the collection's known keys. -/
theorem expand_inheritance_errors :
    (∀ (configs : Configs) (n0 : String) (c0 : Entries)
       (chain : List (String × Entries)) (p : String),
       (∀ q ∈ (n0, c0) :: chain, lookupConfig configs q.1 = some q.2) →
       (((n0, c0) :: chain).map Prod.fst).Nodup →
       List.Chain' parentLink ((n0, c0) :: chain) →
       lookupVal (chain.getLastD (n0, c0)).2 "parent_class" =
         some (Value.str p) →
       p ∈ ((n0, c0) :: chain).map Prod.fst →
       (expand_top configs n0).2 = Except.error
         (ConfigError.circularInheritance n0 p
           (((n0, c0) :: chain).map Prod.fst ++ [p]))) ∧
    (∀ (configs : Configs) (n : String),
       lookupConfig configs n = none →
       (expand_top configs n).2 = Except.error
         (ConfigError.notFound n (keysOf configs))) ∧
    (∀ (configs : Configs) (n0 : String) (c0 : Entries)
       (chain : List (String × Entries)) (p : String),
       (∀ q ∈ (n0, c0) :: chain, lookupConfig configs q.1 = some q.2) →
       (((n0, c0) :: chain).map Prod.fst).Nodup →
       List.Chain' parentLink ((n0, c0) :: chain) →
       lookupVal (chain.getLastD (n0, c0)).2 "parent_class" =
         some (Value.str p) →
       p ∉ ((n0, c0) :: chain).map Prod.fst →
       lookupConfig configs p = none →
       (expand_top configs n0).2 = Except.error
         (ConfigError.notFound p (keysOf configs))) := by
  refine ⟨?_, ?_, ?_⟩
  · intro configs n0 c0 chain p hlook hnodup hchain hlast hpmem
    have hsub : ((n0, c0) :: chain).map Prod.fst ⊆ keysOf configs := by
      intro m hm
      obtain ⟨q, hq, rfl⟩ := List.mem_map.mp hm
      exact lookupConfig_mem_keys configs q.1 q.2 (hlook q hq)
    have hlen : (((n0, c0) :: chain).map Prod.fst).length ≤
        (keysOf configs).length :=
      (hnodup.subperm hsub).length_le
    have hfuel : chain.length < configs.length + 1 := by
      simp only [List.length_map, List.length_cons, keysOf] at hlen
      omega
    rw [expand_top, expand_chain_cycle chain n0 c0 configs [] n0
      (configs.length + 1) p hlook hnodup (by simp) hchain hlast
      (Or.inr hpmem) hfuel]
    simp
  · intro configs n hc
    rw [expand_top, expand_step_notFound configs n [] n configs.length hc]
  · intro configs n0 c0 chain p hlook hnodup hchain hlast hpmem hpnone
    have hsub : ((n0, c0) :: chain).map Prod.fst ⊆ keysOf configs := by
      intro m hm
      obtain ⟨q, hq, rfl⟩ := List.mem_map.mp hm
      exact lookupConfig_mem_keys configs q.1 q.2 (hlook q hq)
    have hlen : (((n0, c0) :: chain).map Prod.fst).length ≤
        (keysOf configs).length :=
      (hnodup.subperm hsub).length_le
    have hfuel : chain.length + 1 < configs.length + 1 := by
      simp only [List.length_map, List.length_cons, keysOf] at hlen
      omega
    rw [expand_top, expand_chain_notFound chain n0 c0 configs [] n0
      (configs.length + 1) p hlook hnodup (by simp) hchain hlast
      (List.not_mem_nil p) hpmem hpnone hfuel]

/-- Witness for C3: a configuration naming itself as parent (the length-1
cycle) fails with the circular-inheritance error carrying the chain, a
missing top-level name fails with the not-found error carrying the known
keys, and a present configuration whose parent is absent from the
collection fails with the same not-found error naming the missing parent. -/
theorem expand_inheritance_errors_witness :
    (expand_top [("a", [("parent_class", Value.str "a")])] "a").2 =
      Except.error (ConfigError.circularInheritance "a" "a" ["a", "a"]) ∧
    (expand_top [("a", [("parent_class", Value.str "a")])] "missing").2 =
      Except.error (ConfigError.notFound "missing" ["a"]) ∧
    (expand_top [("c", [("parent_class", Value.str "p")])] "c").2 =
      Except.error (ConfigError.notFound "p" ["c"]) := by
  refine ⟨?_, ?_, ?_⟩
  · apply expand_inheritance_errors.1 [("a", [("parent_class", Value.str "a")])]
      "a" [("parent_class", Value.str "a")] [] "a"
    · intro q hq
      simp only [List.mem_cons, List.not_mem_nil, or_false] at hq
      subst hq
      rfl
    · decide
    · simp
    · rfl
    · simp
  · exact expand_inheritance_errors.2.1 [("a", [("parent_class", Value.str "a")])]
      "missing" rfl
  · apply expand_inheritance_errors.2.2 [("c", [("parent_class", Value.str "p")])]
      "c" [("parent_class", Value.str "p")] [] "p"
    · intro q hq
      simp only [List.mem_cons, List.not_mem_nil, or_false] at hq
      subst hq
      rfl
    · decide
    · simp
    · rfl
    · simp
    · rfl

/-- C4 counterexample: `expand` does mutate the tree stored in the input
collection.  For the collection `{a: {x: 1}}`, whose single tree lacks an
explicit `pure_base_class` key, the collection after `expand(configs, "a")`
differs from the original: `pure_base_class: false` was assigned into the
stored entry itself, not into a working copy. -/
theorem expand_mutates_collection_counterexample :
    (expand_top [("a", [("x", Value.int 1)])] "a").1 ≠
      [("a", [("x", Value.int 1)])] := by
  have he : (expand_top [("a", [("x", Value.int 1)])] "a").1 =
      [("a", [("x", Value.int 1), ("pure_base_class", Value.bool false)])] := rfl
  rw [he]
  simp

/-- C4 as amended: `expand` applies the `pure_base_class` default in place
to the collection's stored entry — after a successful expansion along a
chain, the collection equals the original with `pure_base_class: false`
assigned into exactly the visited entries that lacked the key (an entry with
the key explicit is left untouched, as is the collection when the looked-up
terminal tree carries the key); and `pure_base_class` is evaluated per node
before parent resolution and never inherited implicitly from a parent: the
expansion result carries the named tree's own (defaulted) value whenever
that value is not itself a mapping. -/
theorem expand_inplace_default_amended :
    (∀ (configs : Configs) (n0 : String) (c0 : Entries)
       (chain : List (String × Entries)),
       (∀ q ∈ (n0, c0) :: chain, lookupConfig configs q.1 = some q.2) →
       (((n0, c0) :: chain).map Prod.fst).Nodup →
       List.Chain' parentLink ((n0, c0) :: chain) →
       parentTerminal (chain.getLastD (n0, c0)).2 →
       (expand_top configs n0).1 = defaultAll configs ((n0, c0) :: chain)) ∧
    (∀ (configs : Configs) (n : String) (c : Entries),
       lookupConfig configs n = some c →
       (lookupVal c "pure_base_class").isSome = true →
       parentTerminal c →
       (expand_top configs n).1 = configs) ∧
    (∀ (configs : Configs) (n0 : String) (c0 : Entries)
       (chain : List (String × Entries)) (w : Value) (r : Entries),
       (∀ q ∈ (n0, c0) :: chain, lookupConfig configs q.1 = some q.2) →
       (((n0, c0) :: chain).map Prod.fst).Nodup →
       List.Chain' parentLink ((n0, c0) :: chain) →
       parentTerminal (chain.getLastD (n0, c0)).2 →
       lookupVal (defaulted c0) "pure_base_class" = some w →
       w.isDict = false →
       (expand_top configs n0).2 = Except.ok r →
       lookupVal r "pure_base_class" = some w) := by
  refine ⟨?_, ?_, ?_⟩
  · intro configs n0 c0 chain hlook hnodup hchain hterm
    have hsub : ((n0, c0) :: chain).map Prod.fst ⊆ keysOf configs := by
      intro m hm
      obtain ⟨q, hq, rfl⟩ := List.mem_map.mp hm
      exact lookupConfig_mem_keys configs q.1 q.2 (hlook q hq)
    have hlen : (((n0, c0) :: chain).map Prod.fst).length ≤
        (keysOf configs).length :=
      (hnodup.subperm hsub).length_le
    have hfuel : chain.length < configs.length + 1 := by
      simp only [List.length_map, List.length_cons, keysOf] at hlen
      omega
    rw [expand_top, expand_chain_ok chain n0 c0 configs [] n0
      (configs.length + 1) hlook hnodup (by simp) hchain hterm hfuel]
  · intro configs n c hc hpb hterm
    rw [expand_top, expand_step_terminal configs n [] n configs.length c hc hterm]
    obtain ⟨v, hv⟩ := Option.isSome_iff_exists.mp hpb
    simp [defaultStep, hv]
  · intro configs n0 c0 chain w r hlook hnodup hchain hterm hw hwd hr
    have hsub : ((n0, c0) :: chain).map Prod.fst ⊆ keysOf configs := by
      intro m hm
      obtain ⟨q, hq, rfl⟩ := List.mem_map.mp hm
      exact lookupConfig_mem_keys configs q.1 q.2 (hlook q hq)
    have hlen : (((n0, c0) :: chain).map Prod.fst).length ≤
        (keysOf configs).length :=
      (hnodup.subperm hsub).length_le
    have hfuel : chain.length < configs.length + 1 := by
      simp only [List.length_map, List.length_cons, keysOf] at hlen
      omega
    have hrun := expand_chain_ok chain n0 c0 configs [] n0
      (configs.length + 1) hlook hnodup (by simp) hchain hterm hfuel
    rw [expand_top, hrun] at hr
    have hrs : r = specExpansion ((n0, c0) :: chain) := by
      simpa using hr.symm
    subst hrs
    cases chain with
    | nil => simpa [specExpansion] using hw
    | cons hd tl =>
        have hrev : (((n0, c0) :: hd :: tl).reverse.map Prod.snd) =
            ((hd :: tl).reverse.map Prod.snd) ++ [c0] := by simp
        have hne : ((hd :: tl).reverse.map Prod.snd) ≠ [] := by simp
        have hfold : foldMerge (((n0, c0) :: hd :: tl).reverse.map Prod.snd) =
            mergeDicts (foldMerge ((hd :: tl).reverse.map Prod.snd))
              (defaulted c0) := by
          rw [hrev, foldMerge_append_single _ _ hne]
        have : lookupVal (foldMerge (((n0, c0) :: hd :: tl).reverse.map Prod.snd))
            "pure_base_class" = some w := by
          rw [hfold]
          exact lookupVal_mergeDicts_overlay_nonDict _ _ _ _ hw hwd
        simp only [specExpansion]
        rw [lookupVal_setEntry]
        simpa using this

/-- Witness for the amended C4: a terminal tree without the key gets it
assigned in place; a terminal tree with the key leaves the collection
untouched; and a child whose parent declares `pure_base_class: true`
nevertheless expands with its own defaulted `pure_base_class: false`. -/
theorem expand_inplace_default_amended_witness :
    (expand_top [("a", [("x", Value.int 1)])] "a").1 =
      defaultAll [("a", [("x", Value.int 1)])] [("a", [("x", Value.int 1)])] ∧
    (expand_top [("b", [("pure_base_class", Value.bool true)])] "b").1 =
      [("b", [("pure_base_class", Value.bool true)])] ∧
    lookupVal [("pure_base_class", Value.bool false), ("parent_class", Value.null)]
      "pure_base_class" = some (Value.bool false) := by
  refine ⟨?_, ?_, ?_⟩
  · apply expand_inplace_default_amended.1 [("a", [("x", Value.int 1)])] "a"
      [("x", Value.int 1)] []
    · intro q hq
      simp only [List.mem_cons, List.not_mem_nil, or_false] at hq
      subst hq
      rfl
    · decide
    · simp
    · exact Or.inl rfl
  · apply expand_inplace_default_amended.2.1
      [("b", [("pure_base_class", Value.bool true)])] "b"
      [("pure_base_class", Value.bool true)] rfl rfl (Or.inl rfl)
  · apply expand_inplace_default_amended.2.2
      [("c", [("parent_class", Value.str "p")]),
       ("p", [("pure_base_class", Value.bool true)])] "c"
      [("parent_class", Value.str "p")]
      [("p", [("pure_base_class", Value.bool true)])] (Value.bool false)
    · intro q hq
      simp only [List.mem_cons, List.not_mem_nil, or_false] at hq
      rcases hq with h | h <;> subst h <;> rfl
    · decide
    · exact List.chain'_cons.mpr ⟨rfl, by simp⟩
    · exact Or.inl rfl
    · rfl
    · rfl
    · simp [expand_top, expand_inheritance, defaultPureBase, lookupConfig,
        lookupVal, setEntry, setConfig, keysOf, mergeDicts, mergeBase,
        merge_configs, Value.isDict, List.filter]

/-- C5: `get_base_config` folds `merge_configs` over the parsed base
configuration of every populated slot in the fixed order provider, platform,
cluster, application, core, starting from an empty tree; in particular, for
a stack populated only with a provider whose base is
`{x: 1, net: {a: 1}}` and a platform whose base is `{x: 2, net: {b: 2}}`,
it yields `{x: 2, net: {a: 1, b: 2}}`. -/
theorem get_base_config_fold_order :
    (∀ (prov plat clus app core : Layer) (cfg : Option Value),
        get_base_config
          { application := some app, cluster := some clus,
            platform := some plat, provider := some prov,
            core := some core, config := cfg } =
          merge_configs (merge_configs (merge_configs (merge_configs
            (merge_configs (Value.dict []) prov.base_config)
            plat.base_config) clus.base_config) app.base_config)
            core.base_config) ∧
    get_base_config
      { application := none, cluster := none,
        platform := some
          { module_name := "plat", is_core := false,
            base_config := Value.dict
              [("x", Value.int 2), ("net", Value.dict [("b", Value.int 2)])],
            base_config_text := "", test_overlay := Value.null,
            layer_api := none },
        provider := some
          { module_name := "prov", is_core := false,
            base_config := Value.dict
              [("x", Value.int 1), ("net", Value.dict [("a", Value.int 1)])],
            base_config_text := "", test_overlay := Value.null,
            layer_api := none },
        core := none, config := none } =
      Value.dict [("x", Value.int 2),
        ("net", Value.dict [("a", Value.int 1), ("b", Value.int 2)])] := by
  constructor
  · intro prov plat clus app core cfg
    simp [get_base_config, active_configs]
  · simp [get_base_config, active_configs, merge_configs, mergeDicts,
      mergeBase, lookupVal, Value.isDict, List.filter]

/-- C6: with provider, platform, cluster, and application all populated and
initialized and every layer call succeeding, the remove phase invokes the
layer APIs in the order application, cluster, platform, provider — exactly
the reverse of the deploy phase's order provider, platform, cluster,
application; the core slot participates in neither phase (either sweep is
unchanged by whatever the core slot holds). -/
theorem remove_reverse_of_deploy :
    ∀ (s : VTDSStack) (pA plA cA aA : String),
      apiOf s.provider = some pA → apiOf s.platform = some plA →
      apiOf s.cluster = some cA → apiOf s.application = some aA →
      ∀ (ε : Type) (call : String → Except ε Unit),
      (∀ x, call x = Except.ok ()) →
      (stack_deploy s call).1 = [pA, plA, cA, aA] ∧
      (stack_remove s call).1 = [aA, cA, plA, pA] ∧
      (stack_remove s call).1 = ((stack_deploy s call).1).reverse ∧
      (∀ x : Option Layer,
        stack_deploy { s with core := x } call = stack_deploy s call ∧
        stack_remove { s with core := x } call = stack_remove s call) := by
  intro s pA plA cA aA hp hpl hc ha ε call hok
  have hdep : (stack_deploy s call).1 = [pA, plA, cA, aA] := by
    simp [stack_deploy, active_apis, hp, hpl, hc, ha, run_apis, hok]
  have hrem : (stack_remove s call).1 = [aA, cA, plA, pA] := by
    simp [stack_remove, active_apis, hp, hpl, hc, ha, run_apis, hok]
  refine ⟨hdep, hrem, ?_, ?_⟩
  · rw [hdep, hrem]
    rfl
  · intro x
    exact ⟨rfl, rfl⟩

/-- Witness for C6 on a concrete fully populated, initialized stack with an
all-succeeding phase call. -/
theorem remove_reverse_of_deploy_witness :
    (stack_deploy
      { application := some
          { module_name := "app", is_core := false, base_config := Value.null,
            base_config_text := "", test_overlay := Value.null,
            layer_api := some "app" },
        cluster := some
          { module_name := "clus", is_core := false, base_config := Value.null,
            base_config_text := "", test_overlay := Value.null,
            layer_api := some "clus" },
        platform := some
          { module_name := "plat", is_core := false, base_config := Value.null,
            base_config_text := "", test_overlay := Value.null,
            layer_api := some "plat" },
        provider := some
          { module_name := "prov", is_core := false, base_config := Value.null,
            base_config_text := "", test_overlay := Value.null,
            layer_api := some "prov" },
        core := none, config := none }
      (fun _ => (Except.ok () : Except Unit Unit))).1 =
        ["prov", "plat", "clus", "app"] ∧
    (stack_remove
      { application := some
          { module_name := "app", is_core := false, base_config := Value.null,
            base_config_text := "", test_overlay := Value.null,
            layer_api := some "app" },
        cluster := some
          { module_name := "clus", is_core := false, base_config := Value.null,
            base_config_text := "", test_overlay := Value.null,
            layer_api := some "clus" },
        platform := some
          { module_name := "plat", is_core := false, base_config := Value.null,
            base_config_text := "", test_overlay := Value.null,
            layer_api := some "plat" },
        provider := some
          { module_name := "prov", is_core := false, base_config := Value.null,
            base_config_text := "", test_overlay := Value.null,
            layer_api := some "prov" },
        core := none, config := none }
      (fun _ => (Except.ok () : Except Unit Unit))).1 =
        ["app", "clus", "plat", "prov"] := by
  have h := remove_reverse_of_deploy
    { application := some
        { module_name := "app", is_core := false, base_config := Value.null,
          base_config_text := "", test_overlay := Value.null,
          layer_api := some "app" },
      cluster := some
        { module_name := "clus", is_core := false, base_config := Value.null,
          base_config_text := "", test_overlay := Value.null,
          layer_api := some "clus" },
      platform := some
        { module_name := "plat", is_core := false, base_config := Value.null,
          base_config_text := "", test_overlay := Value.null,
          layer_api := some "plat" },
      provider := some
        { module_name := "prov", is_core := false, base_config := Value.null,
          base_config_text := "", test_overlay := Value.null,
          layer_api := some "prov" },
      core := none, config := none }
    "prov" "plat" "clus" "app" rfl rfl rfl rfl
    Unit (fun _ => Except.ok ()) (fun _ => rfl)
  exact ⟨h.1, h.2.1⟩

/-- C7: with all four slots populated and initialized, when the cluster
layer's deploy call fails the deploy phase aborts at that layer with no
rollback attempted: the trace of invocations is exactly provider, platform,
cluster — so provider and platform were each called exactly once and
application is never called — and the error returned to the caller is
exactly the error raised by the cluster layer's deploy invocation,
propagated unchanged. -/
theorem deploy_aborts_on_failure :
    ∀ (s : VTDSStack) (pA plA cA aA : String),
      apiOf s.provider = some pA → apiOf s.platform = some plA →
      apiOf s.cluster = some cA → apiOf s.application = some aA →
      pA ≠ plA → pA ≠ cA → pA ≠ aA → plA ≠ cA → plA ≠ aA → cA ≠ aA →
      ∀ (ε : Type) (call : String → Except ε Unit) (e : ε),
      call pA = Except.ok () → call plA = Except.ok () →
      call cA = Except.error e →
      stack_deploy s call = ([pA, plA, cA], Except.error e) ∧
      ((stack_deploy s call).1).count pA = 1 ∧
      ((stack_deploy s call).1).count plA = 1 ∧
      aA ∉ (stack_deploy s call).1 := by
  intro s pA plA cA aA hp hpl hc ha h1 h2 h3 h4 h5 h6 ε call e hcp hcpl hcc
  have hdep : stack_deploy s call = ([pA, plA, cA], Except.error e) := by
    simp [stack_deploy, active_apis, hp, hpl, hc, ha, run_apis, hcp, hcpl, hcc]
  refine ⟨hdep, ?_, ?_, ?_⟩
  · rw [hdep]
    simp [List.count_cons, beq_iff_eq, h1.symm, h2.symm]
  · rw [hdep]
    simp [List.count_cons, beq_iff_eq, h1, h4.symm]
  · rw [hdep]
    intro hm
    simp only [List.mem_cons, List.not_mem_nil, or_false] at hm
    rcases hm with h | h | h
    · exact h3 h.symm
    · exact h5 h.symm
    · exact h6 h.symm

/-- Witness for C7 on a concrete stack where the cluster deploy fails. -/
theorem deploy_aborts_on_failure_witness :
    stack_deploy
      { application := some
          { module_name := "app", is_core := false, base_config := Value.null,
            base_config_text := "", test_overlay := Value.null,
            layer_api := some "app" },
        cluster := some
          { module_name := "clus", is_core := false, base_config := Value.null,
            base_config_text := "", test_overlay := Value.null,
            layer_api := some "clus" },
        platform := some
          { module_name := "plat", is_core := false, base_config := Value.null,
            base_config_text := "", test_overlay := Value.null,
            layer_api := some "plat" },
        provider := some
          { module_name := "prov", is_core := false, base_config := Value.null,
            base_config_text := "", test_overlay := Value.null,
            layer_api := some "prov" },
        core := none, config := none }
      (fun x => if x = "clus" then (Except.error () : Except Unit Unit)
                else Except.ok ()) =
      (["prov", "plat", "clus"], Except.error ()) := by
  have h := deploy_aborts_on_failure
    { application := some
        { module_name := "app", is_core := false, base_config := Value.null,
          base_config_text := "", test_overlay := Value.null,
          layer_api := some "app" },
      cluster := some
        { module_name := "clus", is_core := false, base_config := Value.null,
          base_config_text := "", test_overlay := Value.null,
          layer_api := some "clus" },
      platform := some
        { module_name := "plat", is_core := false, base_config := Value.null,
          base_config_text := "", test_overlay := Value.null,
          layer_api := some "plat" },
      provider := some
        { module_name := "prov", is_core := false, base_config := Value.null,
          base_config_text := "", test_overlay := Value.null,
          layer_api := some "prov" },
      core := none, config := none }
    "prov" "plat" "clus" "app" rfl rfl rfl rfl
    (by decide) (by decide) (by decide) (by decide) (by decide) (by decide)
    Unit (fun x => if x = "clus" then Except.error () else Except.ok ()) ()
    (by simp) (by simp) (by simp)
  exact h.1

/-- C8: `get_final_config` called on a freshly constructed stack (before
`initialize`) fails with the precondition error; after initialization with a
configuration it returns exactly that configuration. -/
theorem final_config_precondition :
    (∀ (load : String → LayerData)
       (an cn pln pn con : Option String),
        get_final_config (vtds_stack load an cn pln pn con) =
          Except.error StackError.preconditionError) ∧
    (∀ (s : VTDSStack) (cfg : Value),
        get_final_config (stack_init s cfg) = Except.ok cfg) :=
  ⟨fun _ _ _ _ _ _ => rfl, fun _ _ => rfl⟩

/-- C9 counterexample: the stored final configuration is not immutable after
initialization — a second `initialize` with a different configuration
changes what `get_final_config` returns. -/
theorem final_config_not_immutable_counterexample :
    get_final_config
      (stack_init (vtds_stack (fun _ => ⟨Value.null, "", Value.null⟩)
        none none none none none) (Value.int 1)) = Except.ok (Value.int 1) ∧
    get_final_config
      (stack_init (stack_init (vtds_stack (fun _ => ⟨Value.null, "", Value.null⟩)
        none none none none none) (Value.int 1)) (Value.int 2)) =
      Except.ok (Value.int 2) ∧
    (Except.ok (Value.int 2) : Except StackError Value) ≠
      Except.ok (Value.int 1) := by
  refine ⟨rfl, rfl, ?_⟩
  intro h
  injection h with h1
  injection h1 with h2
  exact absurd h2 (by decide)

/-- C9 as amended: after `initialize` completes, `get_final_config` returns
the configuration passed to the most recent `initialize`; nothing prevents a
further `initialize`, which simply replaces the stored configuration. -/
theorem final_config_last_init_wins :
    (∀ (s : VTDSStack) (cfg : Value),
        get_final_config (stack_init s cfg) = Except.ok cfg) ∧
    (∀ (s : VTDSStack) (c1 c2 : Value),
        get_final_config (stack_init (stack_init s c1) c2) = Except.ok c2) :=
  ⟨fun _ _ => rfl, fun _ _ _ => rfl⟩

/-- C10: the core slot is always populated — when the core identifier is
absent or empty it defaults to the module name `vtds_core` — and every
configuration assembly includes the core layer's configuration, merged (or
concatenated) last, after all other populated slots. -/
theorem core_slot_always_populated :
    ∀ (load : String → LayerData) (an cn pln pn con : Option String),
      (vtds_stack load an cn pln pn con).core =
        some (mkLayer load (core_module_name con) true) ∧
      (active_configs (vtds_stack load an cn pln pn con)).getLast? =
        some (mkLayer load (core_module_name con) true) ∧
      get_base_config (vtds_stack load an cn pln pn con) =
        merge_configs
          (get_base_config { vtds_stack load an cn pln pn con with core := none })
          (load (core_module_name con)).base_config ∧
      get_base_config_text (vtds_stack load an cn pln pn con) =
        get_base_config_text
          { vtds_stack load an cn pln pn con with core := none } ++
          (load (core_module_name con)).base_config_text ++ "\n" ∧
      get_test_config (vtds_stack load an cn pln pn con) =
        merge_configs
          ((active_configs { vtds_stack load an cn pln pn con with core := none }).foldl
            (fun bc l => merge_configs bc l.test_overlay)
            (get_base_config (vtds_stack load an cn pln pn con)))
          (load (core_module_name con)).test_overlay := by
  intro load an cn pln pn con
  have hne : core_module_name con ≠ "" := by
    unfold core_module_name
    cases con with
    | none => decide
    | some s =>
        by_cases hs : s = ""
        · simp [hs]
        · simp [hs]
  have hconstr : construct_layer load (some (core_module_name con)) true =
      some (mkLayer load (core_module_name con) true) := by
    simp [construct_layer, hne]
  have hcore : (vtds_stack load an cn pln pn con).core =
      some (mkLayer load (core_module_name con) true) := by
    simp [vtds_stack, construct_layer, hne]
  have key : ∀ (l4 : List (Option Layer)) (y : Layer),
      List.filterMap id (l4 ++ [some y]) =
        List.filterMap id (l4 ++ [(none : Option Layer)]) ++ [y] := by
    intro l4 y
    simp [List.filterMap_append]
  have hsplit : active_configs (vtds_stack load an cn pln pn con) =
      active_configs { vtds_stack load an cn pln pn con with core := none } ++
        [mkLayer load (core_module_name con) true] := by
    simp only [active_configs, vtds_stack, hconstr]
    exact key [construct_layer load pn false, construct_layer load pln false,
      construct_layer load cn false, construct_layer load an false]
      (mkLayer load (core_module_name con) true)
  refine ⟨hcore, ?_, ?_, ?_, ?_⟩
  · rw [hsplit]
    exact List.getLast?_concat _
  · rw [get_base_config, hsplit, List.foldl_append]
    simp [get_base_config, mkLayer]
  · rw [get_base_config_text, hsplit, List.foldl_append]
    simp [get_base_config_text, mkLayer]
  · rw [get_test_config, hsplit, List.foldl_append]
    simp [mkLayer]

end VtdsBase
